import Mathlib

/-!
Verification of the FlacLossless backend job manager and streaming server
(`backend/server.py`), via a shallow embedding of its data model and
operations: the job lifecycle driven by `JobManager._process_job`, the
cache-checking `create_job` fast path, the `/stream/<filename>` byte-range
endpoint, the `/metadata/<video_id>` endpoint, the `/download` synchronous
wait loop, and the `/jobs/<id>/events` SSE subscriber loop.

Machine integers are modelled as `Nat`/`Int`; file contents as `List Nat`
(one element per byte); the filesystem and the JSON cache as association
lists; Python dict assignment as prepend-shadowing insert.
-/

namespace FlacLossless

/-! ## Association lists (Python dicts) -/

/-- Lookup in an association list; the first binding wins, matching the
shadowing insert below (so it behaves like a Python dict). -/
def alookup {α : Type} (l : List (String × α)) (k : String) : Option α :=
  match l with
  | [] => none
  | (k₁, v) :: rest => if k₁ = k then some v else alookup rest k

/-- Python dict assignment `d[k] = v`: later assignment shadows earlier. -/
def ainsert {α : Type} (l : List (String × α)) (k : String) (v : α) :
    List (String × α) :=
  (k, v) :: l

/-! ## Filesystem model

A filesystem maps absolute path strings to file contents (lists of bytes).
`os.path.exists` is successful lookup, `os.path.getsize` is the content
length. -/

abbrev FS : Type := List (String × List Nat)

def fsLookup (fs : FS) (p : String) : Option (List Nat) := alookup fs p

/-- `os.path.exists(p)` (for the regular files the server works with). -/
def pathExists (fs : FS) (p : String) : Bool := (fsLookup fs p).isSome

/-- `os.path.getsize(p)`, defined when the file exists. -/
def getsize (fs : FS) (p : String) : Nat :=
  match fsLookup fs p with
  | some content => content.length
  | none => 0

/-! String primitives, implemented over `List Char` so that concrete
runs evaluate by kernel reduction. -/

/-- Does `cs` start with `pat`? -/
def listStartsWith : List Char → List Char → Bool
  | _, [] => true
  | [], _ :: _ => false
  | c :: cs, p :: ps => c = p && listStartsWith cs ps

/-- Split on every occurrence of `sep`, keeping empty pieces
(Python `str.split(sep)` for a one-character separator). -/
def splitOnCharAux (sep : Char) : List Char → List Char → List (List Char)
  | [], acc => [acc.reverse]
  | c :: cs, acc =>
    if c = sep then acc.reverse :: splitOnCharAux sep cs []
    else splitOnCharAux sep cs (c :: acc)

def splitOnChar (sep : Char) (cs : List Char) : List (List Char) :=
  splitOnCharAux sep cs []

/-- Remove every (non-overlapping, left-to-right) occurrence of the
non-empty pattern `pat` (Python `str.replace(pat, '')`); structurally
recursive on a fuel that `removeAll` sets to the input length, which each
step (consuming at least one character) never exhausts. -/
def removeAllFuel (pat : List Char) : Nat → List Char → List Char
  | _, [] => []
  | 0, cs => cs
  | fuel + 1, c :: cs =>
    if listStartsWith (c :: cs) pat ∧ pat ≠ [] then
      removeAllFuel pat fuel (cs.drop (pat.length - 1))
    else c :: removeAllFuel pat fuel cs

def removeAll (pat cs : List Char) : List Char :=
  removeAllFuel pat cs.length cs

/-- Substring containment (Python `pat in s`). -/
def containsSub (pat : List Char) : List Char → Bool
  | [] => pat.isEmpty
  | c :: cs => listStartsWith (c :: cs) pat || containsSub pat cs

/-- `os.path.basename`: the component after the last `/`. -/
def basename (p : String) : String :=
  String.mk ((splitOnChar '/' p.toList).getLastD [])

/-! ## Data model: jobs and cache entries -/

inductive Status where
  | queued
  | downloading
  | completed
  | failed
deriving DecidableEq, Repr

/-- Terminal job states: `completed` or `failed`. -/
def Status.isTerminal : Status → Bool
  | .completed => true
  | .failed => true
  | _ => false

/-- The metadata map built by `_process_job` and stored in cache entries
(`title`, `duration`, `thumbnail`, `uploader`). -/
structure Metadata where
  title : String := ""
  duration : Nat := 0
  thumbnail : String := ""
  uploader : String := ""
deriving DecidableEq, Repr

/-- One entry of the `cache.json` store (`file`, `metadata`,
`downloaded_at`, `file_id`). -/
structure CacheEntry where
  file : String
  metadata : Metadata
  downloaded_at : String
  file_id : String
deriving DecidableEq, Repr

abbrev Cache : Type := List (String × CacheEntry)

/-- The mutable `DownloadJob` record (subscriber queues are modelled
separately, in the SSE section). -/
structure Job where
  job_id : String
  video_id : String
  url : String
  title : String
  status : Status
  progress : Nat
  stage : String
  error : Option String
  stream_url : Option String
  metadata : Metadata
  file_path : Option String
deriving DecidableEq, Repr

/-- `DownloadJob.__init__`: status `queued`, progress 0, stage
"Waiting...", everything else empty. -/
def DownloadJob.init (job_id video_id url title : String) : Job :=
  { job_id := job_id
    video_id := video_id
    url := url
    title := title
    status := .queued
    progress := 0
    stage := "Waiting..."
    error := none
    stream_url := none
    metadata := {}
    file_path := none }

/-! ## The `/stream/<filename>` endpoint (`stream_audio`) -/

/-- Python's `'..' in filename` substring test. -/
def containsDotDot (s : String) : Bool := containsSub ['.', '.'] s.toList

/-- Python's `'/' in filename` test. -/
def containsSlash (s : String) : Bool := s.toList.any (· = '/')

/-- `f.read(n)` on a file open at offset `pos`: up to `n` bytes,
possibly fewer (empty at end-of-file). -/
def fileRead (content : List Nat) (pos n : Nat) : List Nat :=
  (content.drop pos).take n

/-- One structural layer per loop iteration of the chunked generator:
while `remaining > 0` read chunks of `min(8192, remaining)`, stopping
early on an empty read. Each iteration consumes at least one byte of
`remaining`, so fuel `remaining.toNat` (set by `sendChunks`) never runs
out. -/
def sendChunksFuel (content : List Nat) : Nat → Nat → Int → List Nat
  | 0, _, _ => []
  | fuel + 1, start, remaining =>
    if remaining ≤ 0 then []
    else
      let data := fileRead content start (min 8192 remaining.toNat)
      if data = [] then []
      else data ++
        sendChunksFuel content fuel (start + data.length)
          (remaining - data.length)

/-- The chunked body generator of `stream_audio`'s range branch:
`f.seek(start)` then the chunked read loop. -/
def sendChunks (content : List Nat) (start : Nat) (remaining : Int) : List Nat :=
  sendChunksFuel content remaining.toNat start remaining

/-- Decimal digits to a number. -/
def digitsToNat (cs : List Char) : Nat :=
  cs.foldl (fun n c => n * 10 + (c.toNat - 48)) 0

/-- Trim surrounding whitespace. -/
def trimChars (cs : List Char) : List Char :=
  ((cs.dropWhile Char.isWhitespace).reverse.dropWhile Char.isWhitespace).reverse

/-- Python `int()` on the pieces produced by `split('-')`: optional
surrounding whitespace, an optional leading `+`, then one or more decimal
digits (a `-` sign cannot survive the split; digit-grouping underscores and
non-ASCII digits are out of scope of the claims and not modelled). -/
def parseIntPy (s : List Char) : Option Nat :=
  let t := trimChars s
  let t := match t with
    | '+' :: rest => rest
    | _ => t
  if t ≠ [] ∧ t.all Char.isDigit then some (digitsToNat t) else none

/-- The range-header parse of `stream_audio`:
`range_header.replace('bytes=', '').split('-')`, `start` from piece 0
(empty piece means 0), `end` from piece 1 (empty piece means
`file_size - 1`, which is `-1` on an empty file, hence `Int`); any parse
failure (non-numeric piece, missing piece 1) raises and is caught,
returning `none`. -/
def parseRange (header : String) (fileSize : Nat) : Option (Nat × Int) :=
  let pieces := splitOnChar '-' (removeAll "bytes=".toList header.toList)
  match pieces with
  | [] => none
  | p₀ :: rest =>
    let start? : Option Nat := if p₀ = [] then some 0 else parseIntPy p₀
    match start?, rest with
    | some s, p₁ :: _ =>
      let stop? : Option Int :=
        if p₁ = [] then some ((fileSize : Int) - 1)
        else (parseIntPy p₁).map (fun n => (n : Int))
      match stop? with
      | some e => some (s, e)
      | none => none
    | some _, [] => none
    | none, _ => none

/-- The response of `stream_audio`, with the headers the code sets:
`ranged` is the 206 branch carrying `Content-Range: bytes start-stop/fileSize`
and `Content-Length = contentLength`; `fullFile` is the `send_file` branch
with `Accept-Ranges: bytes` and `Content-Length = fileSize`. -/
inductive StreamResponse where
  | forbidden
  | notFound
  | ranged (start : Nat) (stop : Int) (fileSize : Nat)
      (contentLength : Int) (body : List Nat)
  | fullFile (fileSize : Nat) (body : List Nat)
deriving DecidableEq, Repr

/-- `stream_audio(filename)` with the request's `Range` header (if any),
over filesystem `fs` rooted at `audioDir` (the `AUDIO_DIR` constant). -/
def stream_audio (audioDir : String) (fs : FS) (filename : String)
    (rangeHeader : Option String) : StreamResponse :=
  if containsDotDot filename || containsSlash filename then .forbidden
  else
    let file_path := audioDir ++ "/" ++ filename
    match fsLookup fs file_path with
    | none => .notFound
    | some content =>
      let file_size := content.length
      let fullResp : StreamResponse := .fullFile file_size content
      match rangeHeader with
      | some header =>
        match parseRange header file_size with
        | some (s, e) =>
          let length : Int := e - s + 1
          .ranged s e file_size length (sendChunks content s length)
        | none => fullResp
      | none => fullResp

/-- The path the forbidden-check guards: `none` exactly when the check
rejects `filename`, otherwise the single path `stream_audio` touches. -/
def servePath (audioDir filename : String) : Option String :=
  if containsDotDot filename || containsSlash filename then none
  else some (audioDir ++ "/" ++ filename)

/-- With enough fuel, the chunked read loop yields exactly the first
`remaining` bytes of the file from offset `start` (fewer when the file
ends first). -/
theorem sendChunksFuel_eq_take (content : List Nat) :
    ∀ (fuel : Nat) (start : Nat) (remaining : Int), remaining.toNat ≤ fuel →
      sendChunksFuel content fuel start remaining =
        (content.drop start).take remaining.toNat := by
  intro fuel
  induction fuel with
  | zero =>
    intro start remaining hf
    have h0 : remaining.toNat = 0 := by omega
    rw [sendChunksFuel, h0, List.take_zero]
  | succ fuel ih =>
    intro start remaining hf
    rw [sendChunksFuel]
    by_cases hr : remaining ≤ 0
    · rw [if_pos hr]
      have h0 : remaining.toNat = 0 := by omega
      rw [h0, List.take_zero]
    · rw [if_neg hr]
      simp only []
      by_cases hdata : fileRead content start (min 8192 remaining.toNat) = []
      · rw [if_pos hdata]
        have hk : 1 ≤ min 8192 remaining.toNat := by omega
        have hnil : content.drop start = [] := by
          rcases List.take_eq_nil_iff.mp hdata with h | h
          · omega
          · exact h
        rw [hnil, List.take_nil]
      · rw [if_neg hdata]
        set k := min 8192 remaining.toNat with hk
        set d := content.drop start with hd
        set data := fileRead content start k with hdta
        have hlen : data.length = min k d.length := by
          simp [hdta, fileRead, hd]
        have hkr : k ≤ remaining.toNat := by omega
        have hpos : 1 ≤ data.length := List.length_pos.mpr hdata
        have hdrop : content.drop (start + data.length) = d.drop data.length := by
          rw [hd, List.drop_drop]
        have hrec : sendChunksFuel content fuel (start + data.length)
            (remaining - data.length) =
            (content.drop (start + data.length)).take
              (remaining - data.length).toNat :=
          ih _ _ (by omega)
        rw [hrec, hdrop]
        have htoNat : (remaining - (data.length : Int)).toNat =
            remaining.toNat - data.length := by omega
        rw [htoNat]
        by_cases hshort : d.length ≤ k
        · -- the file ends within this chunk: data is the whole rest
          have hdata_eq : data = d := by
            rw [hdta, fileRead, ← hd, hk]
            exact List.take_of_length_le hshort
          rw [hdata_eq, List.drop_length, List.take_nil, List.append_nil]
          exact (List.take_of_length_le (by omega)).symm
        · -- full chunk read; the tail continues from offset k
          have hdata_eq : data = d.take k := by
            rw [hdta, fileRead, ← hd, hk]
          rw [hdata_eq, List.length_take]
          have hmin : min k d.length = k := by omega
          rw [hmin, ← List.take_add]
          have hsplit : k + (remaining.toNat - k) = remaining.toNat := by
            omega
          rw [hsplit]

/-- The chunked generator yields exactly the first `remaining` bytes of
the file from offset `start` (fewer when the file ends first). -/
theorem sendChunks_eq_take (content : List Nat) (start : Nat)
    (remaining : Int) :
    sendChunks content start remaining =
      (content.drop start).take remaining.toNat :=
  sendChunksFuel_eq_take content remaining.toNat start remaining le_rfl

/-! ## Claims C4, C5, C10: the streaming endpoint -/

/-- C4: for an existing file of size `N` served by `stream_audio`, a
well-formed `bytes=<start>-<end>` range (with `start ≤ end < N`; an
omitted end defaults to `N - 1` inside `parseRange`) yields a 206
response with `Content-Range: bytes start-end/N`, `Content-Length =
end-start+1`, and a body of exactly the bytes `start..end`; a range
header the parser rejects falls back to the full-content response; no
range header yields the full `N` bytes with `Accept-Ranges: bytes` and
`Content-Length N`. -/
theorem stream_audio_range_correct (audioDir : String) (fs : FS)
    (filename : String) (content : List Nat) (rangeHeader : Option String)
    (hdot : containsDotDot filename = false)
    (hslash : containsSlash filename = false)
    (hfile : fsLookup fs (audioDir ++ "/" ++ filename) = some content) :
    (∀ header s e, rangeHeader = some header →
      parseRange header content.length = some (s, e) →
      (s : Int) ≤ e → e < (content.length : Int) →
      stream_audio audioDir fs filename rangeHeader =
        .ranged s e content.length ((e : Int) - s + 1)
          ((content.drop s).take (e.toNat - s + 1)) ∧
      ((content.drop s).take (e.toNat - s + 1)).length = e.toNat - s + 1) ∧
    (∀ header, rangeHeader = some header →
      parseRange header content.length = none →
      stream_audio audioDir fs filename rangeHeader =
        .fullFile content.length content) ∧
    (rangeHeader = none →
      stream_audio audioDir fs filename rangeHeader =
        .fullFile content.length content ∧ content.length = content.length) := by
  refine ⟨?_, ?_, ?_⟩
  · intro header s e hh hp hse heN
    subst hh
    have hbody : sendChunks content s ((e : Int) - s + 1) =
        (content.drop s).take (e.toNat - s + 1) := by
      rw [sendChunks_eq_take]
      congr 1
      omega
    constructor
    · simp only [stream_audio, hdot, hslash, Bool.or_self, Bool.false_eq_true,
        if_false, hfile, hp, hbody]
    · have hlen : e.toNat - s + 1 ≤ content.length - s := by omega
      rw [List.length_take, List.length_drop]
      omega
  · intro header hh hp
    subst hh
    simp only [stream_audio, hdot, hslash, Bool.or_self, Bool.false_eq_true,
      if_false, hfile, hp]
  · intro hh
    subst hh
    refine ⟨?_, rfl⟩
    simp only [stream_audio, hdot, hslash, Bool.or_self, Bool.false_eq_true,
      if_false, hfile]

/-- Witness for C4: the spec's own example, `bytes=100-199`-style range
(here `bytes=2-5` on a 10-byte file), a malformed header, and a full
request, on concrete inputs. -/
theorem stream_audio_range_correct_witness :
    stream_audio "/audio" [("/audio/a.mp3", [0, 1, 2, 3, 4, 5, 6, 7, 8, 9])]
        "a.mp3" (some "bytes=2-5") = .ranged 2 5 10 4 [2, 3, 4, 5] ∧
    stream_audio "/audio" [("/audio/a.mp3", [0, 1, 2, 3, 4, 5, 6, 7, 8, 9])]
        "a.mp3" (some "bytes=junk") = .fullFile 10 [0, 1, 2, 3, 4, 5, 6, 7, 8, 9] ∧
    stream_audio "/audio" [("/audio/a.mp3", [0, 1, 2, 3, 4, 5, 6, 7, 8, 9])]
        "a.mp3" none = .fullFile 10 [0, 1, 2, 3, 4, 5, 6, 7, 8, 9] := by
  have h := stream_audio_range_correct "/audio"
    [("/audio/a.mp3", [0, 1, 2, 3, 4, 5, 6, 7, 8, 9])] "a.mp3"
    [0, 1, 2, 3, 4, 5, 6, 7, 8, 9] (some "bytes=2-5")
    (by decide) (by decide) (by decide)
  have hm := stream_audio_range_correct "/audio"
    [("/audio/a.mp3", [0, 1, 2, 3, 4, 5, 6, 7, 8, 9])] "a.mp3"
    [0, 1, 2, 3, 4, 5, 6, 7, 8, 9] (some "bytes=junk")
    (by decide) (by decide) (by decide)
  have hf := stream_audio_range_correct "/audio"
    [("/audio/a.mp3", [0, 1, 2, 3, 4, 5, 6, 7, 8, 9])] "a.mp3"
    [0, 1, 2, 3, 4, 5, 6, 7, 8, 9] none
    (by decide) (by decide) (by decide)
  refine ⟨?_, ?_, ?_⟩
  · exact ((h.1 "bytes=2-5" 2 5 rfl (by decide) (by decide) (by decide)).1).trans
      (by decide)
  · exact hm.2.1 "bytes=junk" rfl (by decide)
  · exact (hf.2.2 rfl).1

/-- C5: a filename containing `..` or a path separator is rejected with
403 before any filesystem access (the response is `forbidden` for every
filesystem), and any non-forbidden response resolves exactly the path
`AUDIO_DIR ++ "/" ++ filename` with a filename that is a single,
traversal-free component — a path strictly inside the storage root. -/
theorem stream_audio_traversal_safe (audioDir filename : String) :
    ((containsDotDot filename || containsSlash filename) = true →
      ∀ (fs : FS) (rangeHeader : Option String),
        stream_audio audioDir fs filename rangeHeader = .forbidden) ∧
    (∀ p, servePath audioDir filename = some p →
      p = audioDir ++ "/" ++ filename ∧
      containsDotDot filename = false ∧ containsSlash filename = false) ∧
    (∀ (fs : FS) (rangeHeader : Option String),
      stream_audio audioDir fs filename rangeHeader ≠ .forbidden →
      servePath audioDir filename = some (audioDir ++ "/" ++ filename)) := by
  refine ⟨?_, ?_, ?_⟩
  · intro h fs rangeHeader
    simp only [stream_audio, h, if_true]
  · intro p hp
    by_cases h : (containsDotDot filename || containsSlash filename) = true
    · simp [servePath, h] at hp
    · rw [servePath, if_neg h] at hp
      injection hp with hp
      simp only [Bool.or_eq_true, not_or, Bool.not_eq_true] at h
      exact ⟨hp.symm, h.1, h.2⟩
  · intro fs rangeHeader hne
    by_cases h : (containsDotDot filename || containsSlash filename) = true
    · exact absurd (by simp only [stream_audio, h, if_true]) hne
    · rw [servePath, if_neg h]

/-- Witness for C5: a traversal filename is rejected even though a
matching file exists elsewhere in the filesystem. -/
theorem stream_audio_traversal_safe_witness :
    stream_audio "/audio" [("/etc/secret", [7])] "../../etc/secret"
      (some "bytes=0-0") = .forbidden :=
  (stream_audio_traversal_safe "/audio" "../../etc/secret").1 (by decide)
    [("/etc/secret", [7])] (some "bytes=0-0")

/-- C10: a parsed range whose end is at least the file size still gets a
206 with `Content-Range: bytes start-end/N` and `Content-Length =
end-start+1`, while the streamed body holds only the `max(0, N-start)`
bytes the file actually has past `start` — never more than
`end-start+1`. -/
theorem stream_audio_overlong_range (audioDir : String) (fs : FS)
    (filename header : String) (content : List Nat) (s : Nat) (e : Int)
    (hdot : containsDotDot filename = false)
    (hslash : containsSlash filename = false)
    (hfile : fsLookup fs (audioDir ++ "/" ++ filename) = some content)
    (hparse : parseRange header content.length = some (s, e))
    (hbig : (content.length : Int) ≤ e) :
    stream_audio audioDir fs filename (some header) =
      .ranged s e content.length ((e : Int) - s + 1)
        (sendChunks content s ((e : Int) - s + 1)) ∧
    (sendChunks content s ((e : Int) - s + 1)).length = content.length - s ∧
    (sendChunks content s ((e : Int) - s + 1)).length ≤
      ((e : Int) - s + 1).toNat := by
  refine ⟨?_, ?_, ?_⟩
  · simp only [stream_audio, hdot, hslash, Bool.or_self, Bool.false_eq_true,
      if_false, hfile, hparse]
  · rw [sendChunks_eq_take, List.length_take, List.length_drop]
    omega
  · rw [sendChunks_eq_take, List.length_take, List.length_drop]
    omega

/-- Witness for C10: `bytes=2-50` on a 10-byte file returns
`Content-Range: bytes 2-50/10`, `Content-Length 49`, and an 8-byte body. -/
theorem stream_audio_overlong_range_witness :
    stream_audio "/audio" [("/audio/a.mp3", [0, 1, 2, 3, 4, 5, 6, 7, 8, 9])]
        "a.mp3" (some "bytes=2-50") =
      .ranged 2 50 10 49 [2, 3, 4, 5, 6, 7, 8, 9] ∧
    (8 : Nat) = 10 - 2 ∧ (8 : Nat) ≤ 49 := by
  have h := stream_audio_overlong_range "/audio"
    [("/audio/a.mp3", [0, 1, 2, 3, 4, 5, 6, 7, 8, 9])] "a.mp3" "bytes=2-50"
    [0, 1, 2, 3, 4, 5, 6, 7, 8, 9] 2 50
    (by decide) (by decide) (by decide) (by decide) (by decide)
  exact ⟨h.1.trans (by decide), by decide, by decide⟩

/-! ## The `JobManager` (`create_job`, `get_job`) and cache call sites -/

/-- The call-site validity check on a cache hit:
`file_path and os.path.exists(file_path) and os.path.getsize(file_path) > 0`. -/
def cacheFileValid (fs : FS) (file_path : String) : Bool :=
  file_path ≠ "" && pathExists fs file_path && decide (0 < getsize fs file_path)

/-- The mutable state owned by the `JobManager` plus the module-level
`cache` dict and the filesystem it references. `queue` is the FIFO
`job_queue` of job ids. -/
structure MgrState where
  jobs : List (String × Job)
  queue : List String
  cache : Cache
  fs : FS
deriving DecidableEq, Repr

/-- The cache-miss tail of `create_job`: allocate a fresh queued job,
insert it into the table, enqueue its id. -/
def enqueueNew (st : MgrState) (newId video_id url title : String) :
    Job × MgrState :=
  let job := DownloadJob.init newId video_id url title
  (job, { st with
    jobs := ainsert st.jobs job.job_id job
    queue := st.queue ++ [job.job_id] })

/-- `JobManager.create_job` (its whole body runs under `self.lock`;
sequential application models the serialized critical sections). `newId`
stands for the fresh `uuid.uuid4()` job id. -/
def create_job (st : MgrState) (newId video_id url title : String) :
    Job × MgrState :=
  match alookup st.cache video_id with
  | some cached_entry =>
    if cacheFileValid st.fs cached_entry.file then
      let job0 := DownloadJob.init newId video_id url title
      let job := { job0 with
        status := Status.completed
        progress := 100
        stage := "Loaded from cache"
        stream_url := some ("/stream/" ++ basename cached_entry.file)
        metadata := cached_entry.metadata
        file_path := some cached_entry.file }
      (job, { st with jobs := ainsert st.jobs job.job_id job })
    else enqueueNew st newId video_id url title
  | none => enqueueNew st newId video_id url title

/-- `JobManager.get_job`. -/
def get_job (st : MgrState) (job_id : String) : Option Job :=
  alookup st.jobs job_id

/-- Response of the `/metadata/<video_id>` endpoint. -/
inductive MetaResponse where
  | notInCache
  | meta (video_id : String) (metadata : Metadata) (file : String)
      (downloaded_at : String)
deriving DecidableEq, Repr

/-- `get_metadata`: answers straight from the cache record, with no
filesystem check on the referenced file. -/
def get_metadata (cache : Cache) (video_id : String) : MetaResponse :=
  match alookup cache video_id with
  | none => .notInCache
  | some entry =>
    .meta video_id entry.metadata ("/stream/" ++ basename entry.file)
      entry.downloaded_at

/-- The cache fast path at the top of the `/download` handler: `some`
(file, metadata) when the handler answers from the cache immediately,
`none` when it falls through to `create_job`. -/
def downloadCacheCheck (cache : Cache) (fs : FS) (video_id : String) :
    Option (String × Metadata) :=
  match alookup cache video_id with
  | none => none
  | some cached_entry =>
    if cacheFileValid fs cached_entry.file then
      some ("/stream/" ++ basename cached_entry.file, cached_entry.metadata)
    else none

/-! ## Claim C3: the idempotent cache-hit fast path -/

/-- C3: for a video id with a valid (existing, non-empty) cached file,
`create_job` returns a completed job with progress 100 and result fields
from the entry, pushes nothing onto the work queue; a second call also
pushes nothing and both jobs reference the same cached artifact. -/
theorem create_job_cache_hit (st : MgrState)
    (id1 id2 video_id url1 url2 title1 title2 : String) (entry : CacheEntry)
    (hhit : alookup st.cache video_id = some entry)
    (hvalid : cacheFileValid st.fs entry.file = true) :
    (create_job st id1 video_id url1 title1).1.status = .completed ∧
    (create_job st id1 video_id url1 title1).1.progress = 100 ∧
    (create_job st id1 video_id url1 title1).1.stream_url =
      some ("/stream/" ++ basename entry.file) ∧
    (create_job st id1 video_id url1 title1).1.metadata = entry.metadata ∧
    (create_job st id1 video_id url1 title1).1.file_path = some entry.file ∧
    (create_job st id1 video_id url1 title1).2.queue = st.queue ∧
    (create_job (create_job st id1 video_id url1 title1).2 id2 video_id
        url2 title2).2.queue = st.queue ∧
    (create_job (create_job st id1 video_id url1 title1).2 id2 video_id
        url2 title2).1.file_path =
      (create_job st id1 video_id url1 title1).1.file_path := by
  simp [create_job, hhit, hvalid, DownloadJob.init]

/-- Witness for C3: a concrete valid cache entry is served completed,
with nothing enqueued by either of two calls. -/
theorem create_job_cache_hit_witness :
    (create_job
        { jobs := [], queue := [],
          cache := [("vid", ⟨"/audio/f1.mp3", {}, "d", "f1"⟩)],
          fs := [("/audio/f1.mp3", [1, 2, 3])] }
        "j1" "vid" "u" "t").1.status = .completed ∧
    (create_job
        { jobs := [], queue := [],
          cache := [("vid", ⟨"/audio/f1.mp3", {}, "d", "f1"⟩)],
          fs := [("/audio/f1.mp3", [1, 2, 3])] }
        "j1" "vid" "u" "t").2.queue = [] := by
  have h := create_job_cache_hit
    { jobs := [], queue := [],
      cache := [("vid", ⟨"/audio/f1.mp3", {}, "d", "f1"⟩)],
      fs := [("/audio/f1.mp3", [1, 2, 3])] }
    "j1" "j2" "vid" "u" "u" "t" "t" ⟨"/audio/f1.mp3", {}, "d", "f1"⟩
    (by decide) (by decide)
  exact ⟨h.1, h.2.2.2.2.2.1⟩

/-! ## Claim C6: cache hits and file verification -/

/-- Counterexample to C6 as stated: `get_metadata` is a cache-lookup call
site that returns the record as a hit with no existence or size check —
with the referenced file absent from the filesystem, it does not behave
as a miss. -/
theorem get_metadata_stale_hit_cex :
    fsLookup ([] : FS) "/audio/gone.mp3" = none ∧
    get_metadata [("vid1", ⟨"/audio/gone.mp3", {}, "2024-01-01", "f9"⟩)]
        "vid1" =
      .meta "vid1" {} "/stream/gone.mp3" "2024-01-01" ∧
    get_metadata [("vid1", ⟨"/audio/gone.mp3", {}, "2024-01-01", "f9"⟩)]
        "vid1" ≠ .notInCache := by
  decide

/-- C6 amended: the fetch-triggering call sites (`create_job` and the
`/download` fast path) do verify existence and non-zero size and treat a
stale entry as a miss (a fresh job is enqueued); `get_metadata`, however,
returns the stale record without any filesystem check. -/
theorem cache_hit_verification_at_fetch_sites (st : MgrState)
    (newId video_id url title : String) (entry : CacheEntry)
    (hhit : alookup st.cache video_id = some entry)
    (hinvalid : cacheFileValid st.fs entry.file = false) :
    (create_job st newId video_id url title).1.status = .queued ∧
    (create_job st newId video_id url title).2.queue = st.queue ++ [newId] ∧
    downloadCacheCheck st.cache st.fs video_id = none ∧
    get_metadata st.cache video_id =
      .meta video_id entry.metadata ("/stream/" ++ basename entry.file)
        entry.downloaded_at := by
  refine ⟨?_, ?_, ?_, ?_⟩
  · simp [create_job, hhit, hinvalid, enqueueNew, DownloadJob.init]
  · simp [create_job, hhit, hinvalid, enqueueNew, DownloadJob.init]
  · simp [downloadCacheCheck, hhit, hinvalid]
  · simp [get_metadata, hhit]

/-- Witness for amended C6: a concrete stale entry (file deleted) makes
`create_job` re-fetch while `get_metadata` still answers from the record. -/
theorem cache_hit_verification_at_fetch_sites_witness :
    (create_job
        { jobs := [], queue := [],
          cache := [("vid2", ⟨"/audio/gone.mp3", {}, "d", "f2"⟩)], fs := [] }
        "j9" "vid2" "u" "t").1.status = .queued ∧
    downloadCacheCheck [("vid2", ⟨"/audio/gone.mp3", {}, "d", "f2"⟩)] []
        "vid2" = none := by
  have h := cache_hit_verification_at_fetch_sites
    { jobs := [], queue := [],
      cache := [("vid2", ⟨"/audio/gone.mp3", {}, "d", "f2"⟩)], fs := [] }
    "j9" "vid2" "u" "t" ⟨"/audio/gone.mp3", {}, "d", "f2"⟩
    (by decide) (by decide)
  exact ⟨h.1, h.2.2.1⟩

/-! ## Claim C7: duplicate fetches for the same video id -/

/-- Counterexample to C7: with an empty cache, a second `create_job` for
the same video id enqueues a second fetch even though the first job is
still queued (non-terminal) — the lock serializes the check-then-act but
the check consults only the cache, never in-flight jobs. -/
theorem create_job_duplicate_enqueue_cex :
    (create_job { jobs := [], queue := [], cache := [], fs := [] }
        "j1" "vidX" "u" "").1.status = .queued ∧
    Status.isTerminal
      (create_job { jobs := [], queue := [], cache := [], fs := [] }
        "j1" "vidX" "u" "").1.status = false ∧
    (create_job
      (create_job { jobs := [], queue := [], cache := [], fs := [] }
        "j1" "vidX" "u" "").2 "j2" "vidX" "u" "").2.queue = ["j1", "j2"] ∧
    ((alookup
        (create_job
          (create_job { jobs := [], queue := [], cache := [], fs := [] }
            "j1" "vidX" "u" "").2 "j2" "vidX" "u" "").2.jobs "j1").map
      (fun j => j.status)) = some .queued := by
  decide

/-- C7 amended: `create_job`'s check-then-act under the lock prevents a
second enqueue only through the cache — a valid cached entry means
neither of two calls enqueues anything; for an uncached id, an existing
non-terminal job does not prevent a second enqueue: both calls push. -/
theorem create_job_dedup_cache_only (st : MgrState)
    (id1 id2 video_id url title : String) :
    (∀ entry, alookup st.cache video_id = some entry →
      cacheFileValid st.fs entry.file = true →
      (create_job st id1 video_id url title).2.queue = st.queue ∧
      (create_job (create_job st id1 video_id url title).2 id2 video_id
          url title).2.queue = st.queue) ∧
    (alookup st.cache video_id = none →
      (create_job st id1 video_id url title).2.queue = st.queue ++ [id1] ∧
      (create_job (create_job st id1 video_id url title).2 id2 video_id
          url title).2.queue = st.queue ++ [id1, id2]) := by
  constructor
  · intro entry hhit hvalid
    constructor
    · simp [create_job, hhit, hvalid]
    · simp [create_job, hhit, hvalid]
  · intro hmiss
    constructor
    · simp [create_job, hmiss, enqueueNew, DownloadJob.init]
    · simp [create_job, hmiss, enqueueNew, DownloadJob.init]

/-- Witness for amended C7: on an empty cache both calls enqueue. -/
theorem create_job_dedup_cache_only_witness :
    (create_job { jobs := [], queue := [], cache := [], fs := [] }
        "a1" "vidY" "u" "t").2.queue = [] ++ ["a1"] ∧
    (create_job
      (create_job { jobs := [], queue := [], cache := [], fs := [] }
        "a1" "vidY" "u" "t").2 "a2" "vidY" "u" "t").2.queue =
      [] ++ ["a1", "a2"] :=
  (create_job_dedup_cache_only
    { jobs := [], queue := [], cache := [], fs := [] }
    "a1" "a2" "vidY" "u" "t").2 (by decide)

/-! ## `JobManager._process_job`: the worker's job execution

The yt-dlp invocation is the external fetch capability: its observable
behaviour is the sequence of progress-hook events it fires followed by
either an info dict or a raised exception. The artifact
existence/conversion checks after the download are summarised by
`outputOk` (true exactly when, after the fallback-extension/ffmpeg
attempts, `output_path` exists and has non-zero size). -/

/-- One progress-hook dict with `status == 'downloading'`:
`downloaded_bytes`, `total_bytes`, `total_bytes_estimate` and `speed`
(0 encodes an absent/zero field, matching the Python truthiness in
`d.get('total_bytes') or d.get('total_bytes_estimate', 0)` and
`if speed:`). -/
structure DownloadReport where
  downloaded : Nat
  total_bytes : Nat
  total_bytes_estimate : Nat
  speed : Nat
deriving DecidableEq, Repr

/-- A progress-hook invocation: a `'downloading'` report or `'finished'`. -/
inductive HookEvent where
  | report (r : DownloadReport)
  | finished
deriving DecidableEq, Repr

/-- `total = d.get('total_bytes') or d.get('total_bytes_estimate', 0)`. -/
def totalOf (r : DownloadReport) : Nat :=
  if r.total_bytes ≠ 0 then r.total_bytes else r.total_bytes_estimate

/-- `int((downloaded / total) * 60) + 10`, as the exact rational floor
(the float rounding of the source can differ only on pathological byte
counts and is not claim-relevant). -/
def rawPct (r : DownloadReport) : Nat :=
  r.downloaded * 60 / totalOf r + 10

/-- The body of `progress_hook` on one event: progress update, stage
update, then one published snapshot. The speed suffix interpolated into
the stage string (float formatting) is elided. -/
def hookStep (job : Job) (e : HookEvent) : Job :=
  match e with
  | .report r =>
    let j :=
      if 0 < totalOf r then { job with progress := min (rawPct r) 70 }
      else { job with progress := min (job.progress + 1) 70 }
    { j with stage := "Downloading..." }
  | .finished => { job with progress := 75, stage := "Converting to MP3..." }

/-- The snapshots published by successive hook events. -/
def hookSnaps (job : Job) : List HookEvent → List Job
  | [] => []
  | e :: es => hookStep job e :: hookSnaps (hookStep job e) es

/-- The job state after all hook events. -/
def runHooks (job : Job) (es : List HookEvent) : Job :=
  es.foldl hookStep job

/-- The info dict returned by `ydl.extract_info`, restricted to the
fields `_process_job` reads (`none` for an absent key). -/
structure FetchResult where
  title : Option String
  duration : Option Nat
  thumbnail : Option String
  uploader : Option String
  channel : Option String
deriving DecidableEq, Repr

/-- The metadata map `_process_job` builds from the info dict. -/
def mkMetadata (info : FetchResult) (jobTitle : String) : Metadata :=
  { title := info.title.getD (if jobTitle = "" then "Unknown" else jobTitle)
    duration := info.duration.getD 0
    thumbnail := info.thumbnail.getD ""
    uploader := info.uploader.getD (info.channel.getD "Unknown") }

/-- The `except` handler of `_process_job`: status `failed`, the
exception message as `error`, stage "Failed". -/
def failJob (job : Job) (msg : String) : Job :=
  { job with status := .failed, error := some msg, stage := "Failed" }

/-- The externally determined behaviour of one `_process_job` run: the
hook events, the `extract_info` outcome, the artifact verification
outcome, the final `output_path`, the generated `file_id` and the
`datetime.now().isoformat()` cache timestamp. -/
structure ProcessEnv where
  events : List HookEvent
  result : Except String FetchResult
  outputOk : Bool
  outPath : String
  file_id : String
  now : String

/-- The first mutation block of `_process_job`: `status = "downloading"`,
`stage = "Starting download..."`, `progress = 5`. -/
def stepStart (job : Job) : Job :=
  { job with
    status := Status.downloading, stage := "Starting download...", progress := 5 }

/-- The block before `extract_info`: `stage = "Fetching video info..."`,
`progress = 10`. -/
def stepInfo (job : Job) : Job :=
  { job with stage := "Fetching video info...", progress := 10 }

/-- The metadata/title assignments after a successful `extract_info`. -/
def stepMeta (job : Job) (info : FetchResult) (origTitle : String) : Job :=
  { job with
    metadata := mkMetadata info origTitle
    title := (mkMetadata info origTitle).title }

/-- The `progress = 85`, `stage = "Finalizing..."` block. -/
def stepFinalizing (job : Job) : Job :=
  { job with progress := 85, stage := "Finalizing..." }

/-- The completion block: result fields, `progress = 100`,
`stage = "Complete!"`, `status = "completed"`. -/
def stepComplete (job : Job) (outPath : String) : Job :=
  { job with
    file_path := some outPath
    stream_url := some ("/stream/" ++ basename outPath)
    progress := 100
    stage := "Complete!"
    status := Status.completed }

/-- The sequence of job states at each mutation block of `_process_job`,
in source order: the `downloading`/5 block, the fetching-info/10 block,
one snapshot per hook event, then on success the metadata assignment,
the finalizing/85 block, and the completion block (or the `except`
handler's `failed` state at the failure points: `extract_info` raising,
or the output-file check failing). -/
def processTrace (job : Job) (env : ProcessEnv) : List Job :=
  let j2 := stepInfo (stepStart job)
  let snaps := hookSnaps j2 env.events
  let jh := runHooks j2 env.events
  match env.result with
  | .error msg => stepStart job :: j2 :: (snaps ++ [failJob jh msg])
  | .ok info =>
    let j3 := stepMeta jh info job.title
    let j4 := stepFinalizing j3
    if env.outputOk then
      stepStart job :: j2 :: (snaps ++ [j3, j4, stepComplete j4 env.outPath])
    else
      stepStart job :: j2 :: (snaps ++
        [j3, j4, failJob j4 "Download failed - no output file created"])

/-- The cache after a `_process_job` run: the entry write
`cache[job.video_id] = {...}` happens exactly on the success path,
just before the completion block. -/
def processCache (cache : Cache) (job : Job) (env : ProcessEnv) : Cache :=
  match env.result with
  | .error _ => cache
  | .ok info =>
    if env.outputOk then
      ainsert cache job.video_id
        { file := env.outPath
          metadata := mkMetadata info job.title
          downloaded_at := env.now
          file_id := env.file_id }
    else cache

/-- `JobManager._worker`'s guard: a dequeued id is processed only when
the job exists and is still `queued`; otherwise the iteration publishes
nothing. -/
def workerIteration (jobs : List (String × Job)) (job_id : String)
    (env : ProcessEnv) : List Job :=
  match alookup jobs job_id with
  | some job => if job.status = .queued then processTrace job env else []
  | none => []

/-! Helper lemmas about the hook machinery. -/

theorem hookStep_status (job : Job) (e : HookEvent) :
    (hookStep job e).status = job.status := by
  cases e with
  | report r =>
    simp only [hookStep]
    split <;> rfl
  | finished => rfl

theorem hookSnaps_status (job : Job) (es : List HookEvent) :
    ∀ x ∈ hookSnaps job es, x.status = job.status := by
  induction es generalizing job with
  | nil => intro x hx; simp [hookSnaps] at hx
  | cons e es ih =>
    intro x hx
    rw [hookSnaps] at hx
    rcases List.mem_cons.mp hx with h | h
    · rw [h, hookStep_status]
    · rw [ih (hookStep job e) x h, hookStep_status]

theorem runHooks_status (job : Job) (es : List HookEvent) :
    (runHooks job es).status = job.status := by
  induction es generalizing job with
  | nil => rfl
  | cons e es ih =>
    show (runHooks (hookStep job e) es).status = job.status
    rw [ih (hookStep job e), hookStep_status]

theorem hookStep_progress_le (job : Job) (e : HookEvent) :
    (hookStep job e).progress ≤ 75 := by
  cases e with
  | report r =>
    simp only [hookStep]
    split <;> simp
  | finished => simp [hookStep]

theorem hookSnaps_progress_le (job : Job) (es : List HookEvent) :
    ∀ x ∈ hookSnaps job es, x.progress ≤ 75 := by
  induction es generalizing job with
  | nil => intro x hx; simp [hookSnaps] at hx
  | cons e es ih =>
    intro x hx
    rw [hookSnaps] at hx
    rcases List.mem_cons.mp hx with h | h
    · rw [h]; exact hookStep_progress_le job e
    · exact ih (hookStep job e) x h

theorem runHooks_progress_le (job : Job) (es : List HookEvent)
    (h : job.progress ≤ 75) : (runHooks job es).progress ≤ 75 := by
  induction es generalizing job with
  | nil => exact h
  | cons e es ih =>
    show (runHooks (hookStep job e) es).progress ≤ 75
    exact ih (hookStep job e) (hookStep_progress_le job e)

theorem hookSnaps_append (job : Job) (es₁ es₂ : List HookEvent) :
    hookSnaps job (es₁ ++ es₂) =
      hookSnaps job es₁ ++ hookSnaps (runHooks job es₁) es₂ := by
  induction es₁ generalizing job with
  | nil => rfl
  | cons e es ih =>
    show hookStep job e :: hookSnaps (hookStep job e) (es ++ es₂) = _
    rw [ih (hookStep job e)]
    rfl

theorem runHooks_eq_getLastD (job : Job) (es : List HookEvent) :
    runHooks job es = (hookSnaps job es).getLastD job := by
  induction es generalizing job with
  | nil => rfl
  | cons e es ih =>
    show runHooks (hookStep job e) es = _
    rw [ih (hookStep job e), hookSnaps, List.getLastD_cons]

/-! Shape of a `_process_job` trace. -/

/-- Every `_process_job` trace is a non-empty block of `downloading`
snapshots with progress at most 85, closed by a single terminal snapshot;
the terminal snapshot is `completed` (with progress 100) exactly on the
success path and `failed` (with unchanged, hence at most 85, progress)
otherwise. -/
theorem processTrace_shape (job : Job) (env : ProcessEnv) :
    ∃ mid last, processTrace job env = mid ++ [last] ∧ mid ≠ [] ∧
      (∀ x ∈ mid, x.status = .downloading ∧ x.progress ≤ 85) ∧
      last.status.isTerminal = true ∧
      (last.status = .completed ↔
        env.outputOk = true ∧ ∃ info, env.result = .ok info) ∧
      (last.status = .completed → last.progress = 100) ∧
      (last.status ≠ .completed →
        last.status = .failed ∧ last.progress ≤ 85) := by
  have hmid : ∀ x ∈ stepStart job :: stepInfo (stepStart job) ::
      hookSnaps (stepInfo (stepStart job)) env.events,
      x.status = .downloading ∧ x.progress ≤ 85 := by
    intro x hx
    rcases List.mem_cons.mp hx with h | hx
    · subst h; exact ⟨rfl, by simp [stepStart]⟩
    rcases List.mem_cons.mp hx with h | hx
    · subst h; exact ⟨rfl, by simp [stepInfo]⟩
    · constructor
      · rw [hookSnaps_status _ _ x hx]; rfl
      · exact le_trans (hookSnaps_progress_le _ _ x hx) (by omega)
  have hjh75 : (runHooks (stepInfo (stepStart job)) env.events).progress ≤ 75 :=
    runHooks_progress_le _ _ (by simp [stepInfo])
  have hjhs : (runHooks (stepInfo (stepStart job)) env.events).status =
      .downloading := by
    rw [runHooks_status]; rfl
  cases hres : env.result with
  | error msg =>
    refine ⟨stepStart job :: stepInfo (stepStart job) ::
      hookSnaps (stepInfo (stepStart job)) env.events,
      failJob (runHooks (stepInfo (stepStart job)) env.events) msg,
      by simp [processTrace, hres], by simp, hmid, rfl, ?_, ?_, ?_⟩
    · constructor
      · intro h; cases h
      · rintro ⟨-, info, hinfo⟩; cases hinfo
    · intro h; cases h
    · intro _; exact ⟨rfl, hjh75.trans (by omega)⟩
  | ok info =>
    set jh := runHooks (stepInfo (stepStart job)) env.events with hjh
    have hmid4 : ∀ x ∈ (stepStart job :: stepInfo (stepStart job) ::
        hookSnaps (stepInfo (stepStart job)) env.events) ++
        [stepMeta jh info job.title, stepFinalizing (stepMeta jh info job.title)],
        x.status = .downloading ∧ x.progress ≤ 85 := by
      intro x hx
      rcases List.mem_append.mp hx with h | h
      · exact hmid x h
      rcases List.mem_cons.mp h with h | h
      · subst h
        exact ⟨by simp [stepMeta, hjhs], by simp [stepMeta]; omega⟩
      · rw [List.mem_singleton.mp h]
        exact ⟨by simp [stepFinalizing, stepMeta, hjhs], by simp [stepFinalizing]⟩
    cases houtput : env.outputOk with
    | true =>
      refine ⟨(stepStart job :: stepInfo (stepStart job) ::
        hookSnaps (stepInfo (stepStart job)) env.events) ++
        [stepMeta jh info job.title, stepFinalizing (stepMeta jh info job.title)],
        stepComplete (stepFinalizing (stepMeta jh info job.title)) env.outPath,
        ?_, by simp, hmid4, rfl, ?_, fun _ => rfl, ?_⟩
      · simp [processTrace, hres, houtput, hjh]
      · exact ⟨fun _ => ⟨rfl, info, rfl⟩, fun _ => rfl⟩
      · intro h; exact absurd rfl h
    | false =>
      refine ⟨(stepStart job :: stepInfo (stepStart job) ::
        hookSnaps (stepInfo (stepStart job)) env.events) ++
        [stepMeta jh info job.title, stepFinalizing (stepMeta jh info job.title)],
        failJob (stepFinalizing (stepMeta jh info job.title))
          "Download failed - no output file created",
        ?_, by simp, hmid4, rfl, ?_, ?_, ?_⟩
      · simp [processTrace, hres, houtput, hjh]
      · constructor
        · intro h; cases h
        · rintro ⟨hok, -⟩; cases hok
      · intro h; cases h
      · intro _; exact ⟨rfl, by simp [failJob, stepFinalizing]⟩

/-! ## Claim C1: the status state machine -/

/-- The allowed status transitions (`stay` covers successive snapshots
within the `downloading` phase). -/
inductive StatusStep : Status → Status → Prop where
  | start : StatusStep .queued .downloading
  | stay : StatusStep .downloading .downloading
  | complete : StatusStep .downloading .completed
  | failed : StatusStep .downloading .failed

theorem chain_downloading_then (l : List Job) (t : Status)
    (h : ∀ x ∈ l, x.status = .downloading)
    (ht : StatusStep .downloading t) :
    List.Chain StatusStep .downloading
      (l.map (fun x => x.status) ++ [t]) := by
  induction l with
  | nil => exact List.Chain.cons ht List.Chain.nil
  | cons x xs ih =>
    rw [List.map_cons, List.cons_append, h x (by simp)]
    exact List.Chain.cons StatusStep.stay (ih fun y hy => h y (by simp [hy]))

/-- C1: along every `_process_job` run from a queued job, statuses follow
only `queued → downloading → {completed, failed}` — every snapshot before
the last is `downloading`, the last is terminal, and nothing follows it;
the cache-hit record of `create_job` is created as `completed` directly
and never enqueued, and `_worker` skips any dequeued job that is no
longer `queued`, so a terminal job is never mutated again. -/
theorem job_status_lifecycle (job : Job) (env : ProcessEnv)
    (hq : job.status = .queued) :
    List.Chain StatusStep job.status
      ((processTrace job env).map (fun x => x.status)) ∧
    (∃ last, (processTrace job env).getLast? = some last ∧
      last.status.isTerminal = true) ∧
    (∀ x ∈ (processTrace job env).dropLast, x.status.isTerminal = false) ∧
    (∀ (jobs : List (String × Job)) (job_id : String) (job₀ : Job),
      alookup jobs job_id = some job₀ → job₀.status ≠ .queued →
      workerIteration jobs job_id env = []) := by
  obtain ⟨mid, last, htr, hne, hmid, hterm, hiff, hprog, hfail⟩ :=
    processTrace_shape job env
  have hstep : StatusStep .downloading last.status := by
    by_cases hc : last.status = .completed
    · rw [hc]; exact .complete
    · rw [(hfail hc).1]; exact .failed
  refine ⟨?_, ⟨last, ?_, hterm⟩, ?_, ?_⟩
  · rw [htr, hq, List.map_append, List.map_singleton]
    cases mid with
    | nil => exact absurd rfl hne
    | cons m₀ rest =>
      rw [List.map_cons, List.cons_append, (hmid m₀ (by simp)).1]
      exact List.Chain.cons StatusStep.start
        (chain_downloading_then rest last.status
          (fun y hy => (hmid y (by simp [hy])).1) hstep)
  · rw [htr]
    simp
  · rw [htr, List.dropLast_concat]
    intro x hx
    rw [(hmid x hx).1]
    rfl
  · intro jobs job_id job₀ hj hs
    simp [workerIteration, hj, hs]

/-- Witness for C1: a failing run of a concrete queued job still ends in
a terminal snapshot, and the worker guard skips a completed job. -/
theorem job_status_lifecycle_witness :
    (∃ last, (processTrace (DownloadJob.init "j1" "v" "u" "t")
        { events := [], result := .error "boom", outputOk := false,
          outPath := "", file_id := "", now := "" }).getLast? = some last ∧
      last.status.isTerminal = true) ∧
    workerIteration [("j2", { DownloadJob.init "j2" "v" "u" "t" with
        status := Status.completed })] "j2"
      { events := [], result := .error "boom", outputOk := false,
        outPath := "", file_id := "", now := "" } = [] := by
  have h := job_status_lifecycle (DownloadJob.init "j1" "v" "u" "t")
    { events := [], result := .error "boom", outputOk := false,
      outPath := "", file_id := "", now := "" } rfl
  exact ⟨h.2.1,
    h.2.2.2
      [("j2", { DownloadJob.init "j2" "v" "u" "t" with
        status := Status.completed })]
      "j2"
      { DownloadJob.init "j2" "v" "u" "t" with status := Status.completed }
      (by decide) (by decide)⟩

/-! ## Claim C9: the synchronous `/download` wait -/

/-- The polling loop of `/download`: re-check the job each 0.5 s tick,
exit on a terminal status or once the 180 s timeout (360 ticks) has
elapsed; returns the exit tick. `obs k` is the job's state at tick `k`. -/
def pollExit (obs : Nat → Job) : Nat → Nat → Nat
  | 0, i => i
  | fuel + 1, i =>
    if (obs i).status.isTerminal then i else pollExit obs fuel (i + 1)

/-- The `/download` answer after the wait: the success payload when the
job ended `completed`, otherwise the HTTP-500 body
`job.error or 'Download timed out'`. -/
def downloadWaitResult (obs : Nat → Job) :
    Except String (Option String × Metadata) :=
  let j := obs (pollExit obs 360 0)
  if j.status = .completed then Except.ok (j.stream_url, j.metadata)
  else Except.error (j.error.getD "Download timed out")

theorem pollExit_of_no_terminal (obs : Nat → Job) :
    ∀ (fuel i : Nat),
      (∀ k, i ≤ k → k ≤ i + fuel → (obs k).status.isTerminal = false) →
      pollExit obs fuel i = i + fuel := by
  intro fuel
  induction fuel with
  | zero => intro i _; rfl
  | succ fuel ih =>
    intro i h
    rw [pollExit, h i le_rfl (by omega)]
    simp only [Bool.false_eq_true, if_false]
    rw [ih (i + 1) (fun k hk1 hk2 => h k (by omega) (by omega))]
    omega

/-- C9: when the underlying job reaches no terminal state within the
180-second window, the `/download` wait returns the timeout error — a
pure read that leaves the job alone — while the job's own run still ends
in a terminal snapshot and, on completion, has written its cache entry
(the write happens before the completion block). -/
theorem download_timeout_independent (obs : Nat → Job) (cache : Cache)
    (job : Job) (env : ProcessEnv)
    (hnt : ∀ k, k ≤ 360 → (obs k).status.isTerminal = false)
    (herr : (obs 360).error = none) :
    downloadWaitResult obs = .error "Download timed out" ∧
    (∃ last, (processTrace job env).getLast? = some last ∧
      last.status.isTerminal = true ∧
      (last.status = .completed →
        ∃ info, env.result = .ok info ∧
          alookup (processCache cache job env) job.video_id =
            some { file := env.outPath
                   metadata := mkMetadata info job.title
                   downloaded_at := env.now
                   file_id := env.file_id })) := by
  constructor
  · have hexit : pollExit obs 360 0 = 360 :=
      pollExit_of_no_terminal obs 360 0 (fun k _ h2 => hnt k (by omega))
    have hs : ¬((obs 360).status = .completed) := by
      intro h
      have := hnt 360 le_rfl
      rw [h] at this
      cases this
    rw [downloadWaitResult]
    simp only [hexit, if_neg hs, herr]
    rfl
  · obtain ⟨mid, last, htr, hne, hmid, hterm, hiff, hprog, hfail⟩ :=
      processTrace_shape job env
    refine ⟨last, by rw [htr]; simp, hterm, ?_⟩
    intro hc
    obtain ⟨hok, info, hinfo⟩ := hiff.mp hc
    refine ⟨info, hinfo, ?_⟩
    simp [processCache, hinfo, hok, ainsert, alookup]

/-- Witness for C9: a job observed `queued` at every tick makes the wait
time out with the expected error body. -/
theorem download_timeout_independent_witness :
    downloadWaitResult (fun _ => DownloadJob.init "j" "v" "u" "") =
      .error "Download timed out" :=
  (download_timeout_independent (fun _ => DownloadJob.init "j" "v" "u" "")
    [] (DownloadJob.init "j" "v" "u" "")
    { events := [], result := .ok ⟨none, none, none, none, none⟩,
      outputOk := true, outPath := "/audio/z.mp3", file_id := "z", now := "n" }
    (fun _ _ => rfl) rfl).1

/-! ## Claim C2: progress monotonicity and bounds -/

/-- A fetch behaviour whose second report carries fewer downloaded bytes
than its first. -/
def dropBytesEnv : ProcessEnv :=
  { events := [HookEvent.report ⟨100, 100, 0, 0⟩,
      HookEvent.report ⟨0, 100, 0, 0⟩],
    result := .ok ⟨none, none, none, none, none⟩,
    outputOk := true, outPath := "/audio/x.mp3", file_id := "x", now := "n" }

/-- Counterexample to C2 as stated: `progress_hook` recomputes
`min(int(downloaded/total*60)+10, 70)` with no floor at the current
value, so a report whose `downloaded_bytes` dropped (here 100 of 100,
then 0 of 100) moves progress from 70 back to 10 — the snapshot sequence
is not non-decreasing. -/
theorem progress_not_monotone_cex :
    ((DownloadJob.init "j" "v" "u" "t" ::
        processTrace (DownloadJob.init "j" "v" "u" "t") dropBytesEnv).map
      (fun x => x.progress)) = [0, 5, 10, 70, 10, 10, 85, 100] ∧
    ¬ List.Chain' (fun a b => a.progress ≤ b.progress)
      (DownloadJob.init "j" "v" "u" "t" ::
        processTrace (DownloadJob.init "j" "v" "u" "t") dropBytesEnv) := by
  refine ⟨by decide, ?_⟩
  intro h
  have h2 := (List.chain'_map (fun x : Job => x.progress)).mpr h
  rw [show ((DownloadJob.init "j" "v" "u" "t" ::
      processTrace (DownloadJob.init "j" "v" "u" "t") dropBytesEnv).map
      (fun x => x.progress)) = [0, 5, 10, 70, 10, 10, 85, 100] from by
    decide] at h2
  simp [List.chain'_cons] at h2

/-- Well-behaved hook sequences: every `'downloading'` report carries a
positive (known or estimated) total, the computed percentages are
non-decreasing, and all reports precede the single optional `'finished'`
event. -/
def GoodEvents (es : List HookEvent) : Prop :=
  ∃ rs tail, es = rs.map HookEvent.report ++ tail ∧
    (tail = [] ∨ tail = [HookEvent.finished]) ∧
    (∀ r ∈ rs, 0 < totalOf r) ∧
    List.Chain' (fun a b => rawPct a ≤ rawPct b) rs

theorem hookStep_report_progress (j : Job) (r : DownloadReport)
    (h : 0 < totalOf r) :
    (hookStep j (.report r)).progress = min (rawPct r) 70 := by
  simp [hookStep, h]

theorem getLast?_cons_eq {α : Type} (a : α) (l : List α) :
    (a :: l).getLast? = some (l.getLastD a) := by
  induction l generalizing a with
  | nil => rfl
  | cons b l ih => rw [List.getLast?_cons_cons, ih b, List.getLastD_cons]

theorem chain_hookSnaps_reports (rs : List DownloadReport) :
    ∀ (j : Job), (∀ r ∈ rs, 0 < totalOf r) →
    List.Chain' (fun a b => rawPct a ≤ rawPct b) rs →
    (∀ r, rs.head? = some r → j.progress ≤ min (rawPct r) 70) →
    j.progress ≤ 70 →
    List.Chain' (fun a b => a.progress ≤ b.progress)
      (j :: hookSnaps j (rs.map HookEvent.report)) ∧
    (runHooks j (rs.map HookEvent.report)).progress ≤ 70 := by
  induction rs with
  | nil =>
    intro j _ _ _ hj
    exact ⟨List.chain'_singleton j, hj⟩
  | cons r rs ih =>
    intro j htot hchain hhead hj
    have htr : 0 < totalOf r := htot r (by simp)
    have hstep : (hookStep j (.report r)).progress = min (rawPct r) 70 :=
      hookStep_report_progress j r htr
    have hrel := (List.chain'_cons'.mp hchain).1
    have hrec := ih (hookStep j (.report r))
      (fun r' h => htot r' (by simp [h]))
      (List.chain'_cons'.mp hchain).2
      (fun r' h => by
        have := hrel r' (by simpa using h)
        rw [hstep]
        omega)
      (by rw [hstep]; omega)
    constructor
    · rw [List.map_cons, hookSnaps]
      exact List.chain'_cons.mpr ⟨by rw [hstep]; exact hhead r rfl, hrec.1⟩
    · rw [List.map_cons]
      show (runHooks (hookStep j (.report r)) (rs.map HookEvent.report)).progress ≤ 70
      exact hrec.2

theorem chain_hookSnaps_good (j : Job) (es : List HookEvent)
    (hgood : GoodEvents es) (hj : j.progress ≤ 10) :
    List.Chain' (fun a b => a.progress ≤ b.progress) (j :: hookSnaps j es) ∧
    (runHooks j es).progress ≤ 75 := by
  obtain ⟨rs, tail, hes, htail, htot, hchain⟩ := hgood
  have hhead : ∀ r, rs.head? = some r → j.progress ≤ min (rawPct r) 70 := by
    intro r _
    have h10 : 10 ≤ rawPct r := by
      rw [rawPct]
      exact Nat.le_add_left 10 _
    omega
  have hb := chain_hookSnaps_reports rs j htot hchain hhead (by omega)
  rcases htail with h | h
  · subst h
    rw [hes, List.append_nil]
    exact ⟨hb.1, hb.2.trans (by omega)⟩
  · subst h
    rw [hes, hookSnaps_append]
    constructor
    · rw [show j :: (hookSnaps j (rs.map HookEvent.report) ++
          hookSnaps (runHooks j (rs.map HookEvent.report))
            [HookEvent.finished]) =
        (j :: hookSnaps j (rs.map HookEvent.report)) ++
          hookSnaps (runHooks j (rs.map HookEvent.report))
            [HookEvent.finished] from rfl]
      refine List.chain'_append.mpr ⟨hb.1, ?_, ?_⟩
      · exact List.chain'_singleton _
      · intro x hx y hy
        rw [getLast?_cons_eq] at hx
        simp only [Option.mem_def, Option.some.injEq] at hx hy
        rw [hookSnaps] at hy
        simp only [hookSnaps, List.head?_cons, Option.some.injEq] at hy
        subst hx
        subst hy
        rw [← runHooks_eq_getLastD]
        show _ ≤ (hookStep (runHooks j (rs.map HookEvent.report))
          HookEvent.finished).progress
        rw [show (hookStep (runHooks j (rs.map HookEvent.report))
          HookEvent.finished).progress = 75 from rfl]
        exact hb.2.trans (by omega)
    · rw [runHooks, List.foldl_append]
      show (runHooks (runHooks j (rs.map HookEvent.report))
        [HookEvent.finished]).progress ≤ 75
      rw [show (runHooks (runHooks j (rs.map HookEvent.report))
        [HookEvent.finished]).progress = 75 from rfl]

/-- C2 (amended): across every `_process_job` run from a fresh job
(queued, progress 0), every snapshot that is not `completed` has progress
at most 99, and progress equals 100 exactly on `completed` snapshots; the
sequence is non-decreasing whenever the hook reports are well behaved
(positive totals, non-decreasing computed percentage, reports before
`finished`) — but not for arbitrary report sequences, as a report with
smaller `downloaded_bytes` lowers progress (see the counterexample). -/
theorem progress_bounds_and_monotonicity (job : Job) (env : ProcessEnv)
    (hq : job.status = .queued) (hp : job.progress = 0) :
    (∀ x ∈ job :: processTrace job env,
      x.status ≠ .completed → x.progress ≤ 99) ∧
    (∀ x ∈ job :: processTrace job env,
      (x.progress = 100 ↔ x.status = .completed)) ∧
    (GoodEvents env.events →
      List.Chain' (fun a b => a.progress ≤ b.progress)
        (job :: processTrace job env)) := by
  obtain ⟨mid, last, htr, hne, hmid, hterm, hiff, hprog, hfail⟩ :=
    processTrace_shape job env
  have hboth : ∀ x ∈ job :: processTrace job env,
      (x.status ≠ .completed → x.progress ≤ 99) ∧
      (x.progress = 100 ↔ x.status = .completed) := by
    intro x hx
    rcases List.mem_cons.mp hx with h | hx
    · subst h
      refine ⟨fun _ => by omega, ?_, ?_⟩
      · intro h100; rw [hp] at h100; cases h100
      · intro hc; rw [hc] at hq; cases hq
    · rw [htr] at hx
      rcases List.mem_append.mp hx with h | h
      · have hm := hmid x h
        refine ⟨fun _ => by omega, ?_, ?_⟩
        · intro h100; omega
        · intro hc; rw [hm.1] at hc; cases hc
      · rw [List.mem_singleton.mp h]
        by_cases hc : last.status = .completed
        · exact ⟨fun h' => absurd hc h', fun _ => hc, fun _ => hprog hc⟩
        · have hf := hfail hc
          refine ⟨fun _ => by omega, ?_, fun h' => absurd h' hc⟩
          intro h100; omega
  refine ⟨fun x h => (hboth x h).1, fun x h => (hboth x h).2, ?_⟩
  intro hgood
  have hcg := chain_hookSnaps_good (stepInfo (stepStart job)) env.events
    hgood (by simp [stepInfo])
  have h75 := hcg.2
  have hchainA : List.Chain' (fun a b => a.progress ≤ b.progress)
      (job :: stepStart job :: stepInfo (stepStart job) ::
        hookSnaps (stepInfo (stepStart job)) env.events) := by
    refine List.chain'_cons.mpr ⟨?_, List.chain'_cons.mpr ⟨?_, hcg.1⟩⟩
    · simp [stepStart, hp]
    · simp [stepStart, stepInfo]
  have hlastA : (job :: stepStart job :: stepInfo (stepStart job) ::
      hookSnaps (stepInfo (stepStart job)) env.events).getLast? =
      some (runHooks (stepInfo (stepStart job)) env.events) := by
    rw [getLast?_cons_eq, List.getLastD_cons, List.getLastD_cons,
      ← runHooks_eq_getLastD]
  cases hres : env.result with
  | error msg =>
    have hsplit : job :: processTrace job env =
        (job :: stepStart job :: stepInfo (stepStart job) ::
          hookSnaps (stepInfo (stepStart job)) env.events) ++
        [failJob (runHooks (stepInfo (stepStart job)) env.events) msg] := by
      simp [processTrace, hres]
    rw [hsplit]
    refine List.chain'_append.mpr ⟨hchainA, List.chain'_singleton _, ?_⟩
    intro x hx y hy
    rw [hlastA] at hx
    simp only [Option.mem_def, Option.some.injEq, List.head?_cons] at hx hy
    subst hx; subst hy
    exact le_of_eq rfl
  | ok info =>
    cases houtput : env.outputOk with
    | true =>
      have hsplit : job :: processTrace job env =
          (job :: stepStart job :: stepInfo (stepStart job) ::
            hookSnaps (stepInfo (stepStart job)) env.events) ++
          [stepMeta (runHooks (stepInfo (stepStart job)) env.events) info
              job.title,
            stepFinalizing (stepMeta
              (runHooks (stepInfo (stepStart job)) env.events) info job.title),
            stepComplete (stepFinalizing (stepMeta
              (runHooks (stepInfo (stepStart job)) env.events) info
                job.title)) env.outPath] := by
        simp [processTrace, hres, houtput]
      rw [hsplit]
      refine List.chain'_append.mpr ⟨hchainA, ?_, ?_⟩
      · refine List.chain'_cons.mpr ⟨?_,
          List.chain'_cons.mpr ⟨?_, List.chain'_singleton _⟩⟩
        · show (stepMeta _ info job.title).progress ≤ 85
          rw [show (stepMeta (runHooks (stepInfo (stepStart job)) env.events)
            info job.title).progress =
            (runHooks (stepInfo (stepStart job)) env.events).progress from rfl]
          omega
        · show (85 : Nat) ≤ 100
          omega
      · intro x hx y hy
        rw [hlastA] at hx
        simp only [Option.mem_def, Option.some.injEq, List.head?_cons] at hx hy
        subst hx; subst hy
        exact le_of_eq rfl
    | false =>
      have hsplit : job :: processTrace job env =
          (job :: stepStart job :: stepInfo (stepStart job) ::
            hookSnaps (stepInfo (stepStart job)) env.events) ++
          [stepMeta (runHooks (stepInfo (stepStart job)) env.events) info
              job.title,
            stepFinalizing (stepMeta
              (runHooks (stepInfo (stepStart job)) env.events) info job.title),
            failJob (stepFinalizing (stepMeta
              (runHooks (stepInfo (stepStart job)) env.events) info
                job.title)) "Download failed - no output file created"] := by
        simp [processTrace, hres, houtput]
      rw [hsplit]
      refine List.chain'_append.mpr ⟨hchainA, ?_, ?_⟩
      · refine List.chain'_cons.mpr ⟨?_,
          List.chain'_cons.mpr ⟨?_, List.chain'_singleton _⟩⟩
        · show (stepMeta _ info job.title).progress ≤ 85
          rw [show (stepMeta (runHooks (stepInfo (stepStart job)) env.events)
            info job.title).progress =
            (runHooks (stepInfo (stepStart job)) env.events).progress from rfl]
          omega
        · exact le_of_eq rfl
      · intro x hx y hy
        rw [hlastA] at hx
        simp only [Option.mem_def, Option.some.injEq, List.head?_cons] at hx hy
        subst hx; subst hy
        exact le_of_eq rfl

/-- Witness for amended C2: a concrete well-behaved run (two reports with
growing bytes, then `finished`) yields a non-decreasing snapshot
sequence. -/
theorem progress_bounds_and_monotonicity_witness :
    List.Chain' (fun a b => a.progress ≤ b.progress)
      (DownloadJob.init "jw" "v" "u" "t" ::
        processTrace (DownloadJob.init "jw" "v" "u" "t")
          { events := [HookEvent.report ⟨50, 100, 0, 0⟩,
              HookEvent.report ⟨100, 100, 0, 0⟩, HookEvent.finished],
            result := .ok ⟨none, none, none, none, none⟩,
            outputOk := true, outPath := "/audio/w.mp3", file_id := "w",
            now := "n" }) :=
  (progress_bounds_and_monotonicity (DownloadJob.init "jw" "v" "u" "t")
    { events := [HookEvent.report ⟨50, 100, 0, 0⟩,
        HookEvent.report ⟨100, 100, 0, 0⟩, HookEvent.finished],
      result := .ok ⟨none, none, none, none, none⟩,
      outputOk := true, outPath := "/audio/w.mp3", file_id := "w",
      now := "n" } rfl rfl).2.2
    ⟨[⟨50, 100, 0, 0⟩, ⟨100, 100, 0, 0⟩], [HookEvent.finished], rfl,
      Or.inr rfl, by decide,
      List.chain'_cons.mpr ⟨by decide, List.chain'_singleton _⟩⟩

/-! ## Claim C8: the `/jobs/<id>/events` SSE stream

`generate()` appends a fresh queue to `job.subscribers`, yields the
current snapshot immediately, then loops: `q.get(timeout=30)` either
delivers a published snapshot (emitted, and the loop breaks when its
status is terminal) or times out (a heartbeat is emitted and the loop
breaks when the job's current status is terminal); the `finally` block
removes the queue from the subscriber list. -/

/-- What one `q.get(timeout=30)` call produces: a published snapshot, or
a 30-second timeout, in which case the loop re-reads the job's current
status. -/
inductive QueueOutcome where
  | got (snapshot : Job)
  | timeout (now : Status)
deriving Repr

/-- One server-sent event: a `data:` snapshot or a heartbeat. -/
inductive SSEEvent where
  | data (snapshot : Job)
  | heartbeat
deriving DecidableEq, Repr

/-- The loop of `generate()` driven by the queue outcomes; an exhausted
schedule models the transport disconnecting. -/
def eventLoop : List QueueOutcome → List SSEEvent
  | [] => []
  | .got snapshot :: rest =>
    SSEEvent.data snapshot ::
      (if snapshot.status.isTerminal then [] else eventLoop rest)
  | .timeout now :: rest =>
    SSEEvent.heartbeat :: (if now.isTerminal then [] else eventLoop rest)

/-- The whole SSE stream delivered to one subscriber: the immediate
initial snapshot, then the loop. -/
def jobEventsStream (job : Job) (sched : List QueueOutcome) : List SSEEvent :=
  SSEEvent.data job :: eventLoop sched

/-- `Queue()` registration: `job.subscribers.append(q)`. -/
def subscribe (subs : List Nat) (q : Nat) : List Nat := subs ++ [q]

/-- The `finally` cleanup: `if q in job.subscribers:
job.subscribers.remove(q)` (removes the first occurrence). -/
def closeCleanup (subs : List Nat) (q : Nat) : List Nat :=
  if q ∈ subs then subs.erase q else subs

/-- A job already in a terminal state when a subscriber registers. -/
def doneJob : Job :=
  { DownloadJob.init "jd" "v" "u" "t" with
    status := Status.completed, progress := 100 }

/-- Behavioural note: for an already-completed job the loop stays in its
30-second `q.get` for one cycle, so the close comes one heartbeat after
the initial terminal snapshot (the close condition — a terminal snapshot
has been delivered — is established by the very first event). -/
theorem late_subscriber_one_heartbeat :
    jobEventsStream doneJob [QueueOutcome.timeout Status.completed] =
      [SSEEvent.data doneJob, SSEEvent.heartbeat] := by
  decide

/-- C8: a subscriber registering on a job already in a terminal state
immediately receives the current — terminal — snapshot as its first
delivery; the stream then closes: since nothing is ever published for a
terminal job, every queue outcome is a 30-second timeout observing the
terminal status, and the loop breaks at the first such check (emitting
one heartbeat) no matter how long the connection could have stayed — or
the transport disconnects first (the empty schedule). Every close state
thus has a terminal snapshot already delivered (it is the first event).
On close the subscriber's queue is removed from the job's subscriber
list. -/
theorem late_subscriber_terminal_snapshot (job : Job)
    (sched : List QueueOutcome) (hterm : job.status.isTerminal = true)
    (hsched : ∀ o ∈ sched, o = QueueOutcome.timeout job.status) :
    (jobEventsStream job sched).head? = some (SSEEvent.data job) ∧
    (jobEventsStream job sched = [SSEEvent.data job] ∨
      jobEventsStream job sched =
        [SSEEvent.data job, SSEEvent.heartbeat]) ∧
    (∀ (subs : List Nat) (q : Nat), subs.count q = 1 →
      q ∉ closeCleanup subs q) := by
  refine ⟨rfl, ?_, ?_⟩
  · cases sched with
    | nil => exact Or.inl rfl
    | cons o rest =>
      right
      rw [hsched o (by simp)]
      simp [jobEventsStream, eventLoop, hterm]
  · intro subs q hcount
    have hmem : q ∈ subs := by
      rw [← List.count_pos_iff]
      omega
    rw [closeCleanup, if_pos hmem, ← List.count_eq_zero,
      List.count_erase_self]
    omega

/-- Witness for C8: on a concrete completed job with no publishes, the
stream is the terminal snapshot then one heartbeat before close, and the
queue (id 5) is deregistered. -/
theorem late_subscriber_terminal_snapshot_witness :
    (jobEventsStream doneJob [QueueOutcome.timeout Status.completed] =
        [SSEEvent.data doneJob] ∨
      jobEventsStream doneJob [QueueOutcome.timeout Status.completed] =
        [SSEEvent.data doneJob, SSEEvent.heartbeat]) ∧
    (5 : Nat) ∉ closeCleanup (subscribe [] 5) 5 := by
  have h := late_subscriber_terminal_snapshot doneJob
    [QueueOutcome.timeout Status.completed] (by decide)
    (by intro o ho; simp at ho; rw [ho]; rfl)
  exact ⟨h.2.1, h.2.2 (subscribe [] 5) 5 (by decide)⟩

end FlacLossless
